import Mathlib

/-!
# Verification of the Pix CSV consolidator (`app.py`)

Shallow embedding of the ingestion-and-normalization pipeline of the
single-file Streamlit application:

* `normalize_text` — accent-stripping, lowercasing normalizer;
* `clean_val` — locale-aware numeric parser (Brazilian currency strings);
* `read_bs2_csv` — statement reader (header discovery, column
  reconciliation, value parsing) over a generic data-frame model;
* `consolidate` — per-file reading, stamping and concatenation;
* `filter_and_totals`, the per-file summary (`resumo_arquivo`) and the
  Excel emission step over a structured row model, including a small heap
  model for the pandas view/copy/in-place-sort aliasing discipline.

Modelling conventions:

* A parsed Python `float` value is a `PyFloat`: a finite value carried
  exactly as a rational, or one of the two infinities (which
  `pd.to_numeric` produces from the `inf`/`infinity` spellings its C
  helper `floatify` accepts).  Binary rounding is idealized away: a
  recognized decimal literal denotes its exact rational value (the C
  parser's truncation to 17 significant digits and its ±308
  decimal-exponent range check, whose `ERANGE` path coerces
  astronomically long literals to NaN, are outside the modelled regime).
  Sums follow extended-real arithmetic with `∞ + (−∞) = NaN`.
* A pandas missing value (NaN) in a numeric column is `Option.none`,
  and a NaN arising inside a float computation is a `none` result.
* Byte-level decoding (`detect_encoding` + `bytes.decode(errors="replace")`)
  is total in the source; the embedding therefore starts from the decoded
  text.  Concrete inputs used below are ASCII, where decoding is the
  identity.
* Exceptions raised by pandas are modelled with `Except PyErr`.
* All character-level operations are implemented by structural recursion
  over `List Char` so that every definition evaluates by kernel reduction
  on concrete inputs.
-/

deriving instance DecidableEq for Except

namespace AppTax

/-! ## Python string primitives (over `List Char`) -/

/-- Whitespace stripped by `str.strip()` (ASCII repertoire; the Unicode
spaces Python also strips do not occur in the category labels and headers
treated here). -/
def pyIsSpace (c : Char) : Bool :=
  c == ' ' || c == '\t' || c == '\n' || c == '\r' || c == '\x0b' || c == '\x0c'

def pyStripChars (cs : List Char) : List Char :=
  ((cs.dropWhile pyIsSpace).reverse.dropWhile pyIsSpace).reverse

/-- ASCII lowercasing (`str.lower()`; the header markers and category
substrings compared in `app.py` are ASCII after accent stripping). -/
def lowerChar (c : Char) : Char :=
  if c.toNat ≥ 65 && c.toNat ≤ 90 then Char.ofNat (c.toNat + 32) else c

def lowerChars (cs : List Char) : List Char := cs.map lowerChar

/-- Substring occurrence test (`pat in s` / `Series.str.contains` for the
literal, metacharacter-free patterns used in `app.py`). -/
def containsSeq (s pat : List Char) : Bool :=
  pat.isPrefixOf s ||
    match s with
    | [] => false
    | _ :: rest => containsSeq rest pat

/-- Remove every occurrence of the literal `"R$"` (`str.replace("R$", "")`,
left-to-right, non-overlapping). -/
def removeRS : List Char → List Char
  | [] => []
  | [c] => [c]
  | c :: d :: rest =>
    if c = 'R' ∧ d = '$' then removeRS rest else c :: removeRS (d :: rest)

/-- `Series.str.contains(pat, na=False)` for the two literal category
patterns (no regex metacharacters, so containment = substring test). -/
def pyContains (s pat : String) : Bool := containsSeq s.data pat.data

/-! ## `normalize_text` (app.py lines 22–28) -/

/-- NFKD decomposition followed by removal of combining marks, restricted
to the accented Latin letters that occur in Portuguese bank statements
(the repertoire relevant to `app.py`'s category labels).  Characters
outside this table are unchanged. -/
def stripAccent (c : Char) : Char :=
  match c with
  | 'á' | 'à' | 'â' | 'ã' | 'ä' => 'a'
  | 'Á' | 'À' | 'Â' | 'Ã' | 'Ä' => 'A'
  | 'é' | 'è' | 'ê' | 'ë' => 'e'
  | 'É' | 'È' | 'Ê' | 'Ë' => 'E'
  | 'í' | 'ì' | 'î' | 'ï' => 'i'
  | 'Í' | 'Ì' | 'Î' | 'Ï' => 'I'
  | 'ó' | 'ò' | 'ô' | 'õ' | 'ö' => 'o'
  | 'Ó' | 'Ò' | 'Ô' | 'Õ' | 'Ö' => 'O'
  | 'ú' | 'ù' | 'û' | 'ü' => 'u'
  | 'Ú' | 'Ù' | 'Û' | 'Ü' => 'U'
  | 'ç' => 'c'
  | 'Ç' => 'C'
  | 'ñ' => 'n'
  | 'Ñ' => 'N'
  | other => other

/-- `normalize_text`: decompose and drop accents, lowercase, strip
surrounding whitespace.  (The `s is None` guard of the source returns
`""`; the embedding works on strings directly.) -/
def normalize_text (s : String) : String :=
  String.mk (pyStripChars (lowerChars (s.data.map stripAccent)))

/-! ## `clean_val` (app.py lines 30–39) -/

def digitsVal (l : List Char) : ℕ :=
  l.foldl (fun a c => 10 * a + (c.toNat - 48)) 0

def parseDigitsInt (l : List Char) : Option Int :=
  if !l.isEmpty && l.all Char.isDigit then some (digitsVal l) else none

def parseSignedDigits : List Char → Option Int
  | '+' :: rest => parseDigitsInt rest
  | '-' :: rest => (parseDigitsInt rest).map Neg.neg
  | rest => parseDigitsInt rest

/-- Optional exponent suffix of a Python float literal (`""` or
`(e|E)[sign]digits`). -/
def parseExpPart : List Char → Option Int
  | [] => some 0
  | 'e' :: rest => parseSignedDigits rest
  | 'E' :: rest => parseSignedDigits rest
  | _ => none

/-- Recognized shape of a Python float literal: sign, integer digits,
fraction digits, exponent. -/
structure PyDec where
  neg : Bool
  ip : List Char
  fp : List Char
  exp : Int
deriving Repr, DecidableEq

/-- Exact rational denotation of a recognized float literal. -/
def pyDecVal (d : PyDec) : ℚ :=
  (if d.neg then -1 else 1) *
    ((digitsVal d.ip : ℚ) + (digitsVal d.fp : ℚ) / 10 ^ d.fp.length) * 10 ^ d.exp

/-- Unsigned part of the Python float grammar:
`digits [. digits] [exp]` or `. digits [exp]`. -/
def pyFloatCore (cs : List Char) : Option (List Char × List Char × Int) :=
  let ip := cs.takeWhile Char.isDigit
  let rest := cs.dropWhile Char.isDigit
  if rest.head? = some '.' then
    let rest2 := rest.tail
    let fp := rest2.takeWhile Char.isDigit
    let rest3 := rest2.dropWhile Char.isDigit
    if ip.isEmpty && fp.isEmpty then none
    else
      match parseExpPart rest3 with
      | some e => some (ip, fp, e)
      | none => none
  else
    if ip.isEmpty then none
    else
      match parseExpPart rest with
      | some e => some (ip, [], e)
      | none => none

/-- Recognizer for a full (signed) Python float literal. -/
def pyFloatParse (s : String) : Option PyDec :=
  match s.data with
  | '+' :: rest => (pyFloatCore rest).map (fun p => ⟨false, p.1, p.2.1, p.2.2⟩)
  | '-' :: rest => (pyFloatCore rest).map (fun p => ⟨true, p.1, p.2.1, p.2.2⟩)
  | cs => (pyFloatCore cs).map (fun p => ⟨false, p.1, p.2.1, p.2.2⟩)

/-- A float produced by `pd.to_numeric`: a finite value (exact rational)
or an infinity.  NaN is represented by `Option.none` around this type. -/
inductive PyFloat where
  | fin (q : ℚ)
  | pinf
  | ninf
deriving Repr, DecidableEq

def PyFloat.isFin : PyFloat → Bool
  | .fin _ => true
  | _ => false

/-- The infinity spellings the `floatify` fallback of pandas accepts
(ASCII case-insensitively, by exact length) when the C float parser
fails: `inf`, `+inf`, `infinity`, `+infinity` give `+∞`; `-inf` and
`-infinity` give `−∞`.  Any other unparsable cell is a `ValueError`,
which `errors="coerce"` turns into NaN. -/
def infSpelling (s : String) : Option PyFloat :=
  let low := lowerChars s.data
  if low = ['i', 'n', 'f'] ∨ low = ['+', 'i', 'n', 'f']
      ∨ low = ['i', 'n', 'f', 'i', 'n', 'i', 't', 'y']
      ∨ low = ['+', 'i', 'n', 'f', 'i', 'n', 'i', 't', 'y'] then some .pinf
  else if low = ['-', 'i', 'n', 'f'] ∨ low = ['-', 'i', 'n', 'f', 'i', 'n', 'i', 't', 'y'] then
    some .ninf
  else none

/-- `pd.to_numeric(s, errors="coerce")` on one already-stringified cell
(`maybe_convert_numeric` → `floatify`): first the C float parser
(`precise_xstrtod`, modelled by the recognizer above and denoted
exactly), then the infinity spellings; everything else coerces to NaN
(`none` — in particular `""`, `"nan"`, and literals rejected through the
parser's `ERANGE` range path). -/
def pyFloat? (s : String) : Option PyFloat :=
  ((pyFloatParse s).map (fun d => PyFloat.fin (pyDecVal d))).or (infSpelling s)

/-- Character class of the trailing-minus regex `^([0-9\.,]+)-$`. -/
def inMinusClass (c : Char) : Bool := c.isDigit || c == '.' || c == ','

/-- Step 5 of `clean_val`: rewrite trailing-minus notation
(`"0,45-" ↦ "-0,45"`).  The regex is anchored, so it applies only when
the whole string is one nonempty run of `[0-9.,]` followed by `-`. -/
def trailingMinusRewrite (s : String) : String :=
  let cs := s.data
  if decide (2 ≤ cs.length) && (cs.getLast? == some '-')
      && cs.dropLast.all inMinusClass then
    String.mk ('-' :: cs.dropLast)
  else s

/-- The pure string pipeline of `clean_val` (steps 1–8).  Step order
follows the source: NBSP removal, `"R$"` removal, space removal,
Unicode-minus replacement, trailing-minus rewrite, thousands-dot removal,
comma-to-dot replacement. -/
def cleanStr (s : String) : String :=
  let s1 := s.data.filter (fun d => d != ' ')
  let s2 := removeRS s1
  let s3 := s2.filter (fun d => d != ' ')
  let s4 := s3.map (fun c => if c = '−' then '-' else c)
  let s5 := (trailingMinusRewrite (String.mk s4)).data
  let s6 := s5.filter (fun d => d != '.')
  let s7 := s6.map (fun c => if c = ',' then '.' else c)
  String.mk s7

/-- Element-wise body of `clean_val` (the `Series.astype(str)` coercion is
the identity here because every cell reaching it is a string): string
pipeline followed by numeric coercion. -/
def clean_val_elem (s : String) : Option PyFloat :=
  pyFloat? (cleanStr s)

/-- `clean_val` on a whole column. -/
def clean_val (l : List String) : List (Option PyFloat) := l.map clean_val_elem

/-- Digit groups joined by `'.'` (the Brazilian thousands separator),
e.g. `dotJoin [['1'], ['2','3','4']] = "1.234".data`. -/
def dotJoin : List (List Char) → List Char
  | [] => []
  | [grp] => grp
  | grp :: rest => grp ++ '.' :: dotJoin rest

/-- A leading-minus Brazilian-formatted number: `'-'`, digit groups with
period grouping separators, a comma decimal separator, fraction
digits — e.g. `brNeg [['1'], ['2','3','4']] ['5','6'] = "-1.234,56"`. -/
def brNeg (g : List (List Char)) (f : List Char) : String :=
  String.mk ('-' :: (dotJoin g ++ ',' :: f))

/-- The character repertoire of a Brazilian-formatted number (used to
show that the removal/replacement stages of `clean_val` leave such
strings unchanged). -/
def plainChar (c : Char) : Prop :=
  c = '-' ∨ c = '.' ∨ c = ',' ∨ c.isDigit = true

/-! ## Generic data-frame model for the Statement Reader

`read_bs2_csv` manipulates a pandas `DataFrame` whose column labels are
data (they come from the file's header line and may collide after
canonical renaming), so the reader is modelled over an explicit
column-list/row-list frame rather than a fixed record type. -/

structure SRow where
  arquivo : String
  data : Option String
  tipo : String
  detalhe : String
  identificador : String
  valor : Option PyFloat
  observacao : String
  valorRaw : String
deriving Repr, DecidableEq

/-! ## Float summation (`Series.sum()`) -/

/-- Float addition on parsed values, idealized to exact rational
arithmetic on finite values; infinities follow the extended-real rules,
and the indeterminate `∞ + (−∞)` produces NaN (`none`). -/
def pyAdd : PyFloat → PyFloat → Option PyFloat
  | .fin a, .fin b => some (.fin (a + b))
  | .fin _, .pinf => some .pinf
  | .pinf, .fin _ => some .pinf
  | .fin _, .ninf => some .ninf
  | .ninf, .fin _ => some .ninf
  | .pinf, .pinf => some .pinf
  | .ninf, .ninf => some .ninf
  | .pinf, .ninf => none
  | .ninf, .pinf => none

/-- `pyAdd` lifted to possibly-NaN operands (NaN propagates). -/
def pyAddO : Option PyFloat → Option PyFloat → Option PyFloat
  | none, _ => none
  | some _, none => none
  | some x, some y => pyAdd x y

/-- Float accumulation from `0.0` (the NaN cells of a column are removed
before this runs — `skipna=True`); a NaN arising inside the accumulation
(mixed infinities) propagates. -/
def pySum (l : List PyFloat) : Option PyFloat :=
  l.foldl (fun acc v => pyAddO acc (some v)) (some (.fin 0))

/-- Summing a list of already-computed float results (used to state the
per-file total aggregation of C1). -/
def pySumO (l : List (Option PyFloat)) : Option PyFloat :=
  l.foldl pyAddO (some (.fin 0))

/-- Is a total a finite float (neither an infinity nor NaN)? -/
def totalFinite : Option PyFloat → Bool
  | some (.fin _) => true
  | _ => false

/-! ## `filter_and_totals` (app.py lines 91–101) -/

def feePat : String := "tarifa operacoes pix"

def refundPat : String := "devolucao recebida pix"

def tarifaMatch (r : SRow) : Bool := pyContains (normalize_text r.tipo) feePat

def devolMatch (r : SRow) : Bool := pyContains (normalize_text r.tipo) refundPat

/-- `Series.sum()` over the `Valor` column: NaN entries are skipped
(`skipna=True`), an empty sum is `0.0`. -/
def sumValor (l : List SRow) : Option PyFloat := pySum (l.filterMap SRow.valor)

/-- Lines 91–101: subsets by normalized-`Tipo` containment and their
totals (with the source's explicit empty-input and empty-subset
guards). -/
def filter_and_totals (df : List SRow) :
    List SRow × List SRow × Option PyFloat × Option PyFloat :=
  if df.isEmpty then (df, df, some (.fin 0), some (.fin 0))
  else
    let tarifa := df.filter tarifaMatch
    let devol := df.filter devolMatch
    (tarifa, devol,
     if tarifa.isEmpty then some (.fin 0) else sumValor tarifa,
     if devol.isEmpty then some (.fin 0) else sumValor devol)

/-! ## Per-file summary `resumo_arquivo` (app.py lines 178–187) -/

structure ResumoEntry where
  arquivo : String
  linhas : ℕ
  totalTarifa : Option PyFloat
  totalDevol : Option PyFloat
deriving Repr, DecidableEq

/-- `groupby("Arquivo")` keys: distinct source filenames in sorted order
(pandas sorts group keys by default). -/
def resumoKeys (df : List SRow) : List String :=
  List.insertionSort (· ≤ ·) (df.map SRow.arquivo).dedup

/-- Lines 181–187: per-file row count and per-category totals.  Note the
predicates here are exact equality (`Series.eq`) on the normalized
`Tipo`, not the containment test of `filter_and_totals`. -/
def resumo_arquivo (df : List SRow) : List ResumoEntry :=
  (resumoKeys df).map (fun k =>
    let g := df.filter (fun r => r.arquivo == k)
    { arquivo := k
      linhas := g.length
      totalTarifa := sumValor (g.filter (fun r => normalize_text r.tipo == feePat))
      totalDevol := sumValor (g.filter (fun r => normalize_text r.tipo == refundPat)) })

/-! ## Report sheets and date sorting (app.py lines 103–124) -/

/-- Comparison used by `sort_values(by="Data", ascending=True,
na_position="last")`: lexicographic on present dates, NaN after
everything. -/
def dateLe : Option String → Option String → Bool
  | _, none => true
  | none, some _ => false
  | some a, some b => decide (a ≤ b)

def dateRel (a b : SRow) : Prop := dateLe a.data b.data = true

instance : DecidableRel dateRel :=
  fun a b => (inferInstance : Decidable (dateLe a.data b.data = true))

/-- The subset sorted by `Data` ascending with NaN dates placed last
(rows with a date sorted, NaN rows appended in original order). -/
def sortByData (rows : List SRow) : List SRow :=
  List.insertionSort dateRel (rows.filter (fun r => r.data.isSome))
    ++ rows.filter (fun r => r.data.isNone)

/-- The seven columns displayed on the two detail sheets
(`Valor_raw` is dropped by the column selection of lines 112/119). -/
structure SheetRow where
  arquivo : String
  data : Option String
  tipo : String
  detalhe : String
  identificador : String
  valor : Option PyFloat
  observacao : String
deriving Repr, DecidableEq

def toSheetRow (r : SRow) : SheetRow :=
  ⟨r.arquivo, r.data, r.tipo, r.detalhe, r.identificador, r.valor, r.observacao⟩

/-- Rows of the "Devolução Recebida Pix" / "Detalhe Tarifas Pix" sheet
for a given subset (lines 111–123): sorted by date, projected to the
displayed columns; an empty subset yields a header-only sheet. -/
def sheetRows (subset : List SRow) : List SheetRow :=
  if subset.isEmpty then [] else (sortByData subset).map toSheetRow

/-! ## Heap model of the classification/report aliasing discipline

pandas frames are mutable objects: `df[mask]` is a view, `.copy()`
allocates, `sort_values(inplace=True)` mutates the receiver.  To state
that the report step never disturbs the consolidated table, the relevant
fragment of the app is replayed over an explicit heap of frames
addressed by allocation order. -/

abbrev Heap := List (List SRow)

def hRead (h : Heap) (r : ℕ) : List SRow := h.getD r []

def hWrite (h : Heap) (r : ℕ) (t : List SRow) : Heap := h.set r t

def hAlloc (h : Heap) (t : List SRow) : Heap × ℕ := (h ++ [t], h.length)

/-- Heap-level `filter_and_totals`: each `df[mask].copy()` (and each
`df.copy()` of the empty branch) allocates a fresh, independently owned
frame; the input reference is only read. -/
def filter_and_totals_st (h : Heap) (df : ℕ) :
    Heap × ℕ × ℕ × Option PyFloat × Option PyFloat :=
  let t := hRead h df
  if t.isEmpty then
    let a1 := hAlloc h t
    let a2 := hAlloc a1.1 t
    (a2.1, a1.2, a2.2, some (.fin 0), some (.fin 0))
  else
    let tarifa := t.filter tarifaMatch
    let devol := t.filter devolMatch
    let a1 := hAlloc h tarifa
    let a2 := hAlloc a1.1 devol
    (a2.1, a1.2, a2.2,
     if tarifa.isEmpty then some (.fin 0) else sumValor tarifa,
     if devol.isEmpty then some (.fin 0) else sumValor devol)

/-- Heap effects of `to_excel_bytes` (lines 103–124): the in-place date
sorts of the two nonempty subset frames, in source order (refund sheet
first). -/
def to_excel_st (h : Heap) (devolRef tarifaRef : ℕ) : Heap :=
  let h1 := if (hRead h devolRef).isEmpty then h
            else hWrite h devolRef (sortByData (hRead h devolRef))
  if (hRead h1 tarifaRef).isEmpty then h1
  else hWrite h1 tarifaRef (sortByData (hRead h1 tarifaRef))

/-- The processing block of lines 161–202 at heap level: the consolidated
table is the object at reference `0`; classification allocates the two
subset copies, the report step sorts them in place.  Returns the final
heap and the `tarifa`/`devol` references. -/
def reportPipeline (t : List SRow) : Heap × ℕ × ℕ :=
  let res := filter_and_totals_st [t] 0
  (to_excel_st res.1 res.2.2.1 res.2.1, res.2.1, res.2.2.1)

/-! ## Session file collection (app.py lines 138–147) -/

/-- The `(name, byte-length)` identity key of an uploaded file (content
modelled as its byte sequence). -/
def fileKey (p : String × List ℕ) : String × ℕ := (p.1, p.2.length)

/-- The "add to consolidation" handler: `existing_keys` is computed once
from the stored collection, then each submitted file is appended only
when its key is not among them. -/
def addFiles (session files : List (String × List ℕ)) : List (String × List ℕ) :=
  let keys := session.map fileKey
  files.foldl (fun acc f => if keys.contains (fileKey f) then acc else acc ++ [f]) session

/-! ## Named intermediate states of the reader pipeline

Abbreviations for the frames `read_bs2_csv` builds after a successful
parse, used to state and prove its input/output relation: `addCols` are
the canonical columns synthesized by lines 72–74; `rowE`/`colsE` the
frame after synthesis; `valorOf` the raw `Valor` cell of a row;
`row3`/`cols3` the frame after the `Valor_raw` copy and the numeric
parse; `outRow` a final row after the seven-column selection. -/

/-- A consolidated row whose normalized `Tipo` strictly contains the fee
label (so the containment classifier matches it but the per-file
equality test does not). -/
def rowContainsFee : SRow :=
  ⟨"a.csv", some "01/01", "pix tarifa operacoes pix", "", "",
   some (PyFloat.fin 10), "", ""⟩

def dfC1 : List SRow := [rowContainsFee]

/-- A consolidated row whose normalized `Tipo` is exactly the fee
label. -/
def rowExactFee : SRow :=
  ⟨"a.csv", some "01/01", "Tarifa Operações Pix", "", "", none, "", ""⟩

def dfExact : List SRow := [rowExactFee]

/-- A consolidated row whose `Valor` cell text was the spelling `"inf"`:
the cleaning pipeline leaves it unchanged and `pd.to_numeric` parses it
to `+∞`. -/
def rowInfFee : SRow :=
  ⟨"a.csv", some "01/01", "Tarifa Operações Pix", "", "",
   clean_val_elem "inf", "", "inf"⟩

def dfInf : List SRow := [rowInfFee]

/-! ## Helper lemmas -/

lemma pyAdd_comm (a b : PyFloat) : pyAdd a b = pyAdd b a := by
  cases a <;> cases b <;> simp [pyAdd, add_comm]

lemma pyAddO_comm (a b : Option PyFloat) : pyAddO a b = pyAddO b a := by
  rcases a with _ | a <;> rcases b with _ | b <;> try rfl
  exact pyAdd_comm a b

lemma pyAddO_assoc (a b c : Option PyFloat) :
    pyAddO (pyAddO a b) c = pyAddO a (pyAddO b c) := by
  rcases a with _ | (a | _ | _) <;> rcases b with _ | (b | _ | _) <;>
    rcases c with _ | (c | _ | _) <;> simp [pyAddO, pyAdd, add_assoc]

lemma pyAddO_zero (a : Option PyFloat) : pyAddO (some (PyFloat.fin 0)) a = a := by
  rcases a with _ | (q | _ | _) <;> simp [pyAddO, pyAdd]

lemma pyAddO_zero_right (a : Option PyFloat) : pyAddO a (some (PyFloat.fin 0)) = a := by
  rw [pyAddO_comm]
  exact pyAddO_zero a

lemma pyAddO_add_add_comm (a b c d : Option PyFloat) :
    pyAddO (pyAddO a b) (pyAddO c d) = pyAddO (pyAddO a c) (pyAddO b d) := by
  rw [pyAddO_assoc, ← pyAddO_assoc b c d, pyAddO_comm b c, pyAddO_assoc c b d,
    ← pyAddO_assoc a c (pyAddO b d)]

lemma foldl_pyAddO_from (l : List (Option PyFloat)) :
    ∀ a, l.foldl pyAddO a = pyAddO a (pySumO l) := by
  induction l with
  | nil =>
    intro a
    exact (pyAddO_zero_right a).symm
  | cons b bs ih =>
    intro a
    have hsum : pySumO (b :: bs) = pyAddO b (pySumO bs) := by
      show bs.foldl pyAddO (pyAddO (some (PyFloat.fin 0)) b) = _
      rw [ih (pyAddO (some (PyFloat.fin 0)) b), pyAddO_zero]
    rw [hsum]
    show bs.foldl pyAddO (pyAddO a b) = _
    rw [ih (pyAddO a b), pyAddO_assoc]

lemma pySumO_cons (b : Option PyFloat) (l : List (Option PyFloat)) :
    pySumO (b :: l) = pyAddO b (pySumO l) := by
  show l.foldl pyAddO (pyAddO (some (PyFloat.fin 0)) b) = _
  rw [foldl_pyAddO_from l (pyAddO (some (PyFloat.fin 0)) b), pyAddO_zero]

lemma pySum_eq_sumO (l : List PyFloat) : pySum l = pySumO (l.map some) := by
  unfold pySum pySumO
  rw [List.foldl_map]

lemma sumValor_nil : sumValor [] = some (PyFloat.fin 0) := rfl

lemma sumValor_cons (r : SRow) (l : List SRow) :
    sumValor (r :: l) =
      pyAddO (some (r.valor.getD (PyFloat.fin 0))) (sumValor l) := by
  cases h : r.valor with
  | none =>
    simp only [sumValor, List.filterMap_cons, h, Option.getD_none]
    rw [pyAddO_zero]
  | some v =>
    simp only [sumValor, List.filterMap_cons, h, Option.getD_some]
    rw [pySum_eq_sumO, List.map_cons, pySumO_cons, ← pySum_eq_sumO]

/-- A column of finite values sums to a finite value (exact arithmetic:
no overflow is modelled). -/
lemma sumValor_fin (l : List SRow)
    (h : ∀ r ∈ l, ∀ v, r.valor = some v → v.isFin = true) :
    ∃ q : ℚ, sumValor l = some (PyFloat.fin q) := by
  induction l with
  | nil => exact ⟨0, rfl⟩
  | cons r tl ih =>
    obtain ⟨q, hq⟩ := ih (fun x hx v hv => h x (List.mem_cons_of_mem _ hx) v hv)
    rw [sumValor_cons, hq]
    cases hv : r.valor with
    | none => exact ⟨0 + q, by simp [pyAddO, pyAdd]⟩
    | some v =>
      have hf := h r (List.mem_cons_self _ _) v hv
      cases v with
      | fin a => exact ⟨a + q, by simp [pyAddO, pyAdd]⟩
      | pinf => exact absurd hf (by simp [PyFloat.isFin])
      | ninf => exact absurd hf (by simp [PyFloat.isFin])

lemma sum_guard_eq (l : List SRow) :
    (if l.isEmpty then some (PyFloat.fin 0) else sumValor l) = sumValor l := by
  by_cases h : l.isEmpty
  · rw [List.isEmpty_iff] at h
    subst h
    rfl
  · simp [h]

/-- `filter_and_totals` without its redundant emptiness guards. -/
lemma filter_and_totals_eq (df : List SRow) :
    filter_and_totals df =
      (df.filter tarifaMatch, df.filter devolMatch,
       sumValor (df.filter tarifaMatch), sumValor (df.filter devolMatch)) := by
  unfold filter_and_totals
  by_cases h : df.isEmpty
  · rw [List.isEmpty_iff] at h
    subst h
    rfl
  · simp only [h, if_false, Bool.false_eq_true, sum_guard_eq]

instance : IsTotal SRow dateRel := by
  constructor
  intro a b
  unfold dateRel
  cases ha : a.data <;> cases hb : b.data <;> simp [dateLe]
  exact le_total _ _

instance : IsTrans SRow dateRel := by
  constructor
  intro a b c hab hbc
  unfold dateRel at *
  cases ha : a.data <;> cases hb : b.data <;> cases hc : c.data <;>
    simp_all [dateLe]
  exact le_trans hab hbc

lemma sortByData_perm (l : List SRow) : List.Perm (sortByData l) l := by
  unfold sortByData
  refine List.Perm.trans (List.Perm.append_right _ (List.perm_insertionSort _ _)) ?_
  have h : l.filter (fun r => r.data.isNone) =
      l.filter (fun r => !(r.data.isSome)) := by
    apply List.filter_congr
    intro r _
    cases r.data <;> rfl
  rw [h]
  exact List.filter_append_perm _ l

lemma sortByData_sorted (l : List SRow) :
    List.Pairwise dateRel (sortByData l) := by
  unfold sortByData
  rw [List.pairwise_append]
  refine ⟨List.sorted_insertionSort dateRel _, ?_, ?_⟩
  · rw [List.pairwise_iff_forall_sublist]
    intro a b hsub
    have hmem := hsub.subset
    have hb : b ∈ l.filter (fun r => r.data.isNone) := hmem (by simp)
    have := (List.mem_filter.mp hb).2
    unfold dateRel
    cases hbd : b.data
    · simp [dateLe]
    · simp [hbd] at this
  · intro a _ b hb
    have := (List.mem_filter.mp hb).2
    unfold dateRel
    cases hbd : b.data
    · simp [dateLe]
    · simp [hbd] at this

/-- Evaluation of `clean_val_elem` through a recognized literal. -/
lemma clean_val_elem_eq (s : String) (d : PyDec)
    (h : pyFloatParse (cleanStr s) = some d) :
    clean_val_elem s = some (PyFloat.fin (pyDecVal d)) := by
  rw [clean_val_elem, pyFloat?, h]
  rfl

/-! ## Claim theorems -/

/-- Claim C3 counterexample: the totals are *not* always finite floats.
A `Valor` cell holding the spelling `"inf"` passes the cleaning pipeline
unchanged (no currency marker, space, dot or comma to rewrite), pandas'
`floatify` accepts the spelling, and `pd.to_numeric` yields `+∞`; on a
one-row table whose `Tipo` matches the fee classifier the fee total is
then `+∞`, not a finite float. -/
theorem claim_C3_counterexample :
    clean_val ["inf"] = [some PyFloat.pinf] ∧
    rowInfFee.valor = some PyFloat.pinf ∧
    (filter_and_totals dfInf).2.2.1 = some PyFloat.pinf ∧
    totalFinite (filter_and_totals dfInf).2.2.1 = false := by decide

/-- Claim C3 (amended): for every input table, `filter_and_totals`
returns the two subsets filtered by the containment predicates,
`fee_total` equal to the float sum of `Valor` over the fee subset and
`refund_total` over the refund subset with missing values excluded
(`filterMap`, so an empty matching subset sums to `0.0`), and on the
empty table two empty subsets and zero totals; the totals are finite
floats provided every summed `Valor` is a finite number — not
unconditionally (see the counterexample with an `"inf"` cell). -/
theorem claim_C3_amended (df : List SRow) :
    (filter_and_totals df).1 = df.filter tarifaMatch ∧
    (filter_and_totals df).2.1 = df.filter devolMatch ∧
    (filter_and_totals df).2.2.1 = pySum ((df.filter tarifaMatch).filterMap SRow.valor) ∧
    (filter_and_totals df).2.2.2 = pySum ((df.filter devolMatch).filterMap SRow.valor) ∧
    (df = [] →
      filter_and_totals df = ([], [], some (PyFloat.fin 0), some (PyFloat.fin 0))) ∧
    ((∀ r ∈ df, ∀ v, r.valor = some v → v.isFin = true) →
      totalFinite (filter_and_totals df).2.2.1 = true ∧
      totalFinite (filter_and_totals df).2.2.2 = true) := by
  rw [filter_and_totals_eq]
  refine ⟨rfl, rfl, rfl, rfl, ?_, ?_⟩
  · intro h
    subst h
    rfl
  · intro hfin
    constructor
    · obtain ⟨q, hq⟩ := sumValor_fin (df.filter tarifaMatch)
        (fun r hr v hv => hfin r (List.mem_of_mem_filter hr) v hv)
      show totalFinite (sumValor (df.filter tarifaMatch)) = true
      rw [hq]
      rfl
    · obtain ⟨q, hq⟩ := sumValor_fin (df.filter devolMatch)
        (fun r hr v hv => hfin r (List.mem_of_mem_filter hr) v hv)
      show totalFinite (sumValor (df.filter devolMatch)) = true
      rw [hq]
      rfl

/-- Witness for the amended C3 on a one-row table with a missing
`Valor` (all present values vacuously finite). -/
theorem claim_C3_amended_witness :
    totalFinite (filter_and_totals dfExact).2.2.1 = true ∧
    totalFinite (filter_and_totals dfExact).2.2.2 = true :=
  (claim_C3_amended dfExact).2.2.2.2.2 (by decide)

/-- Claim C4: the rows of each detail sheet are a permutation of the
subset's (projected) rows, ordered by `Data` ascending with every
missing-`Data` row placed after all dated rows; the sort is total (never
raises). -/
theorem claim_C4 (subset : List SRow) :
    List.Perm (sheetRows subset) (subset.map toSheetRow) ∧
    List.Pairwise (fun a b : SheetRow => dateLe a.data b.data = true) (sheetRows subset) := by
  unfold sheetRows
  by_cases h : subset.isEmpty
  · rw [List.isEmpty_iff] at h
    subst h
    simp
  · simp only [h, if_false, Bool.false_eq_true]
    constructor
    · exact (sortByData_perm subset).map toSheetRow
    · exact List.Pairwise.map toSheetRow (fun a b hab => hab) (sortByData_sorted subset)

/-- Claim C5: the four specified examples of the Numeric Parser. -/
theorem claim_C5 :
    clean_val ["R$ 1.234,56"] = [some (PyFloat.fin (1234.56 : ℚ))] ∧
    clean_val ["0,45-"] = [some (PyFloat.fin (-0.45 : ℚ))] ∧
    clean_val [""] = [none] ∧
    clean_val ["R$ -1,00"] = [some (PyFloat.fin (-1.0 : ℚ))] := by
  have h1 : clean_val_elem "R$ 1.234,56" = some (PyFloat.fin (1234.56 : ℚ)) := by
    rw [clean_val_elem_eq _ ⟨false, ['1', '2', '3', '4'], ['5', '6'], 0⟩ (by decide)]
    have d1 : digitsVal ['1', '2', '3', '4'] = 1234 := by decide
    have d2 : digitsVal ['5', '6'] = 56 := by decide
    norm_num [pyDecVal, d1, d2]
  have h2 : clean_val_elem "0,45-" = some (PyFloat.fin (-0.45 : ℚ)) := by
    rw [clean_val_elem_eq _ ⟨true, ['0'], ['4', '5'], 0⟩ (by decide)]
    have d1 : digitsVal ['0'] = 0 := by decide
    have d2 : digitsVal ['4', '5'] = 45 := by decide
    norm_num [pyDecVal, d1, d2]
  have h3 : clean_val_elem "" = none := by decide
  have h4 : clean_val_elem "R$ -1,00" = some (PyFloat.fin (-1.0 : ℚ)) := by
    rw [clean_val_elem_eq _ ⟨true, ['1'], ['0', '0'], 0⟩ (by decide)]
    have d1 : digitsVal ['1'] = 1 := by decide
    have d2 : digitsVal ['0', '0'] = 0 := by decide
    norm_num [pyDecVal, d1, d2]
  exact ⟨by simp [clean_val, h1], by simp [clean_val, h2],
         by simp [clean_val, h3], by simp [clean_val, h4]⟩

/-- Claim C8: a submitted file is appended exactly when no stored entry
shares its `(name, byte-length)` key; hence re-adding a pair already in
the session leaves the collection (and its length) unchanged. -/
theorem claim_C8 (s : List (String × List ℕ)) (p : String × List ℕ) :
    (addFiles s [p] = if (s.map fileKey).contains (fileKey p) then s else s ++ [p]) ∧
    (p ∈ s → addFiles s [p] = s ∧ (addFiles s [p]).length = s.length) := by
  have hbase : addFiles s [p] =
      if (s.map fileKey).contains (fileKey p) then s else s ++ [p] := by
    simp [addFiles]
  refine ⟨hbase, fun hmem => ?_⟩
  have hkey : (s.map fileKey).contains (fileKey p) = true :=
    List.elem_eq_true_of_mem (List.mem_map_of_mem fileKey hmem)
  rw [hbase, if_pos hkey]
  exact ⟨rfl, rfl⟩

/-- Witness for C8: re-adding an identical pair leaves the length at 1. -/
theorem claim_C8_witness :
    ("a.csv", [1, 2, 3]) ∈ [("a.csv", [1, 2, 3])] ∧
    addFiles [("a.csv", [1, 2, 3])] [("a.csv", [1, 2, 3])] = [("a.csv", [1, 2, 3])] ∧
    (addFiles [("a.csv", [1, 2, 3])] [("a.csv", [1, 2, 3])]).length =
      [("a.csv", [1, 2, 3])].length :=
  ⟨by decide, (claim_C8 [("a.csv", [1, 2, 3])] ("a.csv", [1, 2, 3])).2 (by decide)⟩

/-- Claim C9: replaying classification and report emission over the frame
heap, the consolidated table (reference `0`) is unchanged at the end —
`filter_and_totals` hands out freshly allocated subset copies (references
distinct from the input's and from each other) and the workbook's
in-place date sorts touch only those copies. -/
theorem claim_C9 (t : List SRow) :
    hRead (reportPipeline t).1 0 = t ∧
    (reportPipeline t).2.1 ≠ 0 ∧
    (reportPipeline t).2.2 ≠ 0 ∧
    (reportPipeline t).2.1 ≠ (reportPipeline t).2.2 := by
  by_cases h : t.isEmpty
  · simp [reportPipeline, filter_and_totals_st, to_excel_st, hAlloc, hRead, hWrite, h,
      List.getD]
  · by_cases hd : (t.filter devolMatch).isEmpty <;>
      by_cases ht : (t.filter tarifaMatch).isEmpty <;>
        simp [reportPipeline, filter_and_totals_st, to_excel_st, hAlloc, hRead, hWrite,
          h, hd, ht, List.getD]

/-! ### Partition of a NaN-skipping sum over the group keys (for C1) -/

lemma sumO_zeros :
    ∀ keys : List String,
      pySumO (keys.map (fun _ => some (PyFloat.fin 0))) = some (PyFloat.fin 0)
  | [] => rfl
  | _ :: ks => by rw [List.map_cons, pySumO_cons, sumO_zeros ks, pyAddO_zero]

lemma sumO_map_add (keys : List String) (f g : String → Option PyFloat) :
    pySumO (keys.map (fun k => pyAddO (f k) (g k)))
      = pyAddO (pySumO (keys.map f)) (pySumO (keys.map g)) := by
  induction keys with
  | nil =>
    show pySumO [] = pyAddO (pySumO []) (pySumO [])
    rw [show pySumO [] = some (PyFloat.fin 0) from rfl, pyAddO_zero]
  | cons k ks ih =>
    simp only [List.map_cons, pySumO_cons]
    rw [ih, pyAddO_add_add_comm]

lemma sumO_indicator_zero (keys : List String) (a : String) (v : Option PyFloat)
    (ha : a ∉ keys) :
    pySumO (keys.map (fun k => if (a == k) then v else some (PyFloat.fin 0)))
      = some (PyFloat.fin 0) := by
  induction keys with
  | nil => rfl
  | cons k ks ih =>
    have hak : ¬(a = k) := fun h => ha (h ▸ List.mem_cons_self k ks)
    have haks : a ∉ ks := fun h => ha (List.mem_cons_of_mem k h)
    rw [List.map_cons, pySumO_cons, ih haks, if_neg (by simpa using hak), pyAddO_zero]

lemma sumO_indicator (keys : List String) (a : String) (v : Option PyFloat)
    (hnd : keys.Nodup) (ha : a ∈ keys) :
    pySumO (keys.map (fun k => if (a == k) then v else some (PyFloat.fin 0))) = v := by
  induction keys with
  | nil => exact absurd ha (List.not_mem_nil a)
  | cons k ks ih =>
    rw [List.map_cons, pySumO_cons]
    rcases List.mem_cons.mp ha with h | h
    · subst h
      have hnot : a ∉ ks := (List.nodup_cons.mp hnd).1
      rw [if_pos (by simp), sumO_indicator_zero ks a v hnot, pyAddO_zero_right]
    · have hak : ¬(a = k) := by
        rintro rfl
        exact (List.nodup_cons.mp hnd).1 h
      rw [if_neg (by simpa using hak), ih (List.nodup_cons.mp hnd).2 h, pyAddO_zero]

/-- Summing the per-group sums over a duplicate-free covering key list
recovers the global sum. -/
lemma group_sum (keys : List String) (P : SRow → Bool) (df : List SRow)
    (hnd : keys.Nodup) (hcov : ∀ r ∈ df, r.arquivo ∈ keys) :
    pySumO (keys.map (fun k => sumValor (df.filter (fun r => P r && (r.arquivo == k)))))
      = sumValor (df.filter P) := by
  induction df with
  | nil =>
    simp only [List.filter_nil]
    rw [show (keys.map fun _ => sumValor [])
        = keys.map (fun _ => some (PyFloat.fin 0)) from rfl]
    rw [sumO_zeros]
    rfl
  | cons r tl ih =>
    have hcov' : ∀ x ∈ tl, x.arquivo ∈ keys :=
      fun x hx => hcov x (List.mem_cons_of_mem _ hx)
    have hr : r.arquivo ∈ keys := hcov r (List.mem_cons_self _ _)
    by_cases hP : P r
    · have hstep : ∀ k : String,
          sumValor (List.filter (fun x => P x && (x.arquivo == k)) (r :: tl))
            = pyAddO
                (if (r.arquivo == k) then some (r.valor.getD (PyFloat.fin 0))
                 else some (PyFloat.fin 0))
                (sumValor (List.filter (fun x => P x && (x.arquivo == k)) tl)) := by
        intro k
        by_cases hk : r.arquivo = k
        · rw [List.filter_cons_of_pos (by simp [hP, hk]), sumValor_cons,
            if_pos (by simpa using hk)]
        · rw [List.filter_cons_of_neg (by simp [hP, hk]), if_neg (by simpa using hk),
            pyAddO_zero]
      simp only [hstep]
      rw [sumO_map_add, sumO_indicator keys r.arquivo _ hnd hr, ih hcov',
        List.filter_cons_of_pos (by simp [hP]), sumValor_cons]
    · have hstep : ∀ k : String,
          List.filter (fun x => P x && (x.arquivo == k)) (r :: tl)
            = List.filter (fun x => P x && (x.arquivo == k)) tl := by
        intro k
        exact List.filter_cons_of_neg (by simp [hP])
      simp only [hstep]
      rw [ih hcov', List.filter_cons_of_neg (by simp [hP])]

/-- Claim C1 counterexample: on a one-row table whose normalized `Tipo`
strictly contains the fee label, the per-file breakdown (which tests
exact equality) totals `0` while the global classifier (containment)
totals `10`, so the per-file totals do not sum to the global total. -/
theorem claim_C1_counterexample :
    pySumO ((resumo_arquivo dfC1).map ResumoEntry.totalTarifa) = some (PyFloat.fin 0) ∧
    (filter_and_totals dfC1).2.2.1 = some (PyFloat.fin 10) ∧
    pySumO ((resumo_arquivo dfC1).map ResumoEntry.totalTarifa) ≠
      (filter_and_totals dfC1).2.2.1 := by
  have hk : resumoKeys dfC1 = ["a.csv"] := by decide
  have hg : dfC1.filter (fun r => r.arquivo == "a.csv") = dfC1 := by decide
  have hfee : dfC1.filter (fun r => normalize_text r.tipo == feePat) = [] := by decide
  have htar : dfC1.filter tarifaMatch = dfC1 := by decide
  have e1 : pySumO ((resumo_arquivo dfC1).map ResumoEntry.totalTarifa)
      = some (PyFloat.fin 0) := by
    rw [resumo_arquivo, hk]
    simp only [List.map_cons, List.map_nil]
    rw [hg, hfee, pySumO_cons]
    show pyAddO (sumValor []) (pySumO []) = some (PyFloat.fin 0)
    rw [sumValor_nil, pyAddO_zero]
    rfl
  have e2 : (filter_and_totals dfC1).2.2.1 = some (PyFloat.fin 10) := by
    rw [filter_and_totals_eq]
    show sumValor (dfC1.filter tarifaMatch) = some (PyFloat.fin 10)
    rw [htar]
    show sumValor [rowContainsFee] = some (PyFloat.fin 10)
    rw [sumValor_cons, sumValor_nil]
    show pyAddO (some (PyFloat.fin 10)) (some (PyFloat.fin 0)) = some (PyFloat.fin 10)
    rw [pyAddO_zero_right]
  refine ⟨e1, e2, ?_⟩
  rw [e1, e2]
  intro hcontra
  rw [Option.some.injEq, PyFloat.fin.injEq] at hcontra
  norm_num at hcontra

/-- Claim C1 (amended): the per-file breakdown tests the normalized
`Tipo` for exact equality with the category label, not containment; its
per-file totals sum to the global `filter_and_totals` total exactly when
containment and equality agree on every row — in particular whenever
every matching row's normalized `Tipo` equals the label verbatim. -/
theorem claim_C1_amended (df : List SRow)
    (hT : ∀ r ∈ df, tarifaMatch r = (normalize_text r.tipo == feePat))
    (hD : ∀ r ∈ df, devolMatch r = (normalize_text r.tipo == refundPat)) :
    pySumO ((resumo_arquivo df).map ResumoEntry.totalTarifa)
      = (filter_and_totals df).2.2.1 ∧
    pySumO ((resumo_arquivo df).map ResumoEntry.totalDevol)
      = (filter_and_totals df).2.2.2 := by
  have hnd : (resumoKeys df).Nodup :=
    ((List.perm_insertionSort _ _).nodup_iff).mpr (List.nodup_dedup _)
  have hcov : ∀ r ∈ df, r.arquivo ∈ resumoKeys df := by
    intro r hr
    have hm : r.arquivo ∈ (df.map SRow.arquivo).dedup :=
      List.mem_dedup.mpr (List.mem_map_of_mem _ hr)
    exact ((List.perm_insertionSort _ _).mem_iff).mpr hm
  have hmapT : (resumo_arquivo df).map ResumoEntry.totalTarifa
      = (resumoKeys df).map (fun k => sumValor ((df.filter (fun r => r.arquivo == k)).filter
          (fun r => normalize_text r.tipo == feePat))) := by
    rw [resumo_arquivo, List.map_map]
    rfl
  have hmapD : (resumo_arquivo df).map ResumoEntry.totalDevol
      = (resumoKeys df).map (fun k => sumValor ((df.filter (fun r => r.arquivo == k)).filter
          (fun r => normalize_text r.tipo == refundPat))) := by
    rw [resumo_arquivo, List.map_map]
    rfl
  rw [filter_and_totals_eq]
  constructor
  · rw [hmapT]
    simp only [List.filter_filter]
    rw [group_sum _ _ _ hnd hcov]
    exact (congrArg sumValor (List.filter_congr (fun r hr => hT r hr))).symm
  · rw [hmapD]
    simp only [List.filter_filter]
    rw [group_sum _ _ _ hnd hcov]
    exact (congrArg sumValor (List.filter_congr (fun r hr => hD r hr))).symm

/-- Witness for the amended C1 on a table whose row's normalized `Tipo`
is exactly the fee label. -/
theorem claim_C1_amended_witness :
    pySumO ((resumo_arquivo dfExact).map ResumoEntry.totalTarifa) =
      (filter_and_totals dfExact).2.2.1 ∧
    pySumO ((resumo_arquivo dfExact).map ResumoEntry.totalDevol) =
      (filter_and_totals dfExact).2.2.2 :=
  claim_C1_amended dfExact (by decide) (by decide)

/-! ### Character-level lemmas for the Numeric Parser (for C10) -/

lemma filter_ne_eq_self (l : List Char) (ch : Char) (h : ∀ c ∈ l, c ≠ ch) :
    l.filter (fun d => d != ch) = l :=
  List.filter_eq_self.mpr (fun c hc => by simpa using h c hc)

lemma map_eq_self_of {α : Type} (l : List α) (f : α → α) (h : ∀ c ∈ l, f c = c) :
    l.map f = l := by
  induction l with
  | nil => rfl
  | cons c cs ih =>
    rw [List.map_cons, h c (List.mem_cons_self _ _),
      ih (fun x hx => h x (List.mem_cons_of_mem _ hx))]

lemma plainChar_ne (c : Char) (h : plainChar c) :
    c ≠ ' ' ∧ c ≠ 'R' ∧ c ≠ ' ' ∧ c ≠ '−' := by
  rcases h with rfl | rfl | rfl | hd
  · exact ⟨by decide, by decide, by decide, by decide⟩
  · exact ⟨by decide, by decide, by decide, by decide⟩
  · exact ⟨by decide, by decide, by decide, by decide⟩
  · refine ⟨?_, ?_, ?_, ?_⟩ <;> (rintro rfl; revert hd; decide)

lemma isDigit_ne_seps (c : Char) (hd : c.isDigit = true) : c ≠ '.' ∧ c ≠ ',' :=
  ⟨by rintro rfl; revert hd; decide, by rintro rfl; revert hd; decide⟩

lemma removeRS_eq_self : ∀ l : List Char, (∀ c ∈ l, c ≠ 'R') → removeRS l = l
  | [], _ => rfl
  | [c], _ => rfl
  | c :: d :: rest, h => by
    have hc : c ≠ 'R' := h c (List.mem_cons_self _ _)
    simp only [removeRS]
    rw [if_neg (by simp [hc])]
    rw [removeRS_eq_self (d :: rest) (fun x hx => h x (List.mem_cons_of_mem _ hx))]

lemma takeWhile_append_all {p : Char → Bool} :
    ∀ ds r : List Char, (∀ c ∈ ds, p c = true) →
      (ds ++ r).takeWhile p = ds ++ r.takeWhile p
  | [], r, _ => rfl
  | d :: ds, r, h => by
    have hd : p d = true := h d (List.mem_cons_self _ _)
    simp only [List.cons_append, List.takeWhile_cons, hd, if_true]
    rw [takeWhile_append_all ds r (fun c hc => h c (List.mem_cons_of_mem _ hc))]

lemma dropWhile_append_all {p : Char → Bool} :
    ∀ ds r : List Char, (∀ c ∈ ds, p c = true) →
      (ds ++ r).dropWhile p = r.dropWhile p
  | [], r, _ => rfl
  | d :: ds, r, h => by
    have hd : p d = true := h d (List.mem_cons_self _ _)
    simp only [List.cons_append, List.dropWhile_cons, hd, if_true]
    exact dropWhile_append_all ds r (fun c hc => h c (List.mem_cons_of_mem _ hc))

lemma takeWhile_all {p : Char → Bool} (ds : List Char) (h : ∀ c ∈ ds, p c = true) :
    ds.takeWhile p = ds := by
  have := takeWhile_append_all ds [] h
  simpa using this

lemma dropWhile_all {p : Char → Bool} (ds : List Char) (h : ∀ c ∈ ds, p c = true) :
    ds.dropWhile p = [] := by
  have := dropWhile_append_all ds [] h
  simpa using this

lemma mem_dotJoin : ∀ (gs : List (List Char)) (c : Char),
    c ∈ dotJoin gs → c ∈ gs.flatten ∨ c = '.'
  | [], c, h => by simp [dotJoin] at h
  | [g], c, h => by
    simp only [dotJoin] at h
    left
    simpa using h
  | g :: g2 :: rest, c, h => by
    simp only [dotJoin, List.mem_append, List.mem_cons] at h
    rcases h with h | h | h
    · left; simp [h]
    · right; exact h
    · rcases mem_dotJoin (g2 :: rest) c h with h' | h'
      · left
        simp only [List.flatten_cons, List.mem_append]
        right
        simpa using h'
      · right; exact h'

lemma filter_dotJoin : ∀ gs : List (List Char), (∀ c ∈ gs.flatten, c.isDigit = true) →
    (dotJoin gs).filter (fun d => d != '.') = gs.flatten
  | [], _ => rfl
  | [g], h => by
    simp only [dotJoin]
    have hg : ∀ c ∈ g, c ≠ '.' := fun c hc =>
      (isDigit_ne_seps c (h c (by simpa using hc))).1
    rw [filter_ne_eq_self g '.' hg]
    simp
  | g :: g2 :: rest, h => by
    simp only [dotJoin, List.filter_append, List.flatten_cons]
    have hg : ∀ c ∈ g, c ≠ '.' := fun c hc =>
      (isDigit_ne_seps c (h c (by simp [hc]))).1
    rw [filter_ne_eq_self g '.' hg, List.filter_cons_of_neg (by simp)]
    have hrest : ∀ c ∈ (g2 :: rest).flatten, c.isDigit = true := by
      intro c hc
      apply h
      simp only [List.flatten_cons, List.mem_append]
      right
      simpa using hc
    rw [filter_dotJoin (g2 :: rest) hrest]
    rw [List.flatten_cons]

lemma trailingMinusRewrite_head_minus (cs : List Char) :
    trailingMinusRewrite (String.mk ('-' :: cs)) = String.mk ('-' :: cs) := by
  cases cs with
  | nil => decide
  | cons d rest =>
    have h : (('-' :: d :: rest).dropLast).all inMinusClass = false := by
      have hdl : ('-' :: d :: rest).dropLast = '-' :: (d :: rest).dropLast := rfl
      rw [hdl, List.all_cons]
      simp [inMinusClass]
    show (if (decide (2 ≤ ('-' :: d :: rest).length)
            && (('-' :: d :: rest).getLast? == some '-')
            && ('-' :: d :: rest).dropLast.all inMinusClass) = true then
          String.mk ('-' :: ('-' :: d :: rest).dropLast)
        else String.mk ('-' :: d :: rest)) = String.mk ('-' :: d :: rest)
    rw [h, Bool.and_false]
    simp

lemma pyFloatCore_digits_frac (ds f : List Char)
    (hds : ∀ c ∈ ds, c.isDigit = true) (hf : ∀ c ∈ f, c.isDigit = true)
    (hne : ds ≠ []) :
    pyFloatCore (ds ++ '.' :: f) = some (ds, f, 0) := by
  have hemp : ds.isEmpty = false := by
    cases ds
    · exact absurd rfl hne
    · rfl
  simp only [pyFloatCore]
  rw [takeWhile_append_all ds ('.' :: f) hds, dropWhile_append_all ds ('.' :: f) hds,
    List.takeWhile_cons_of_neg (by decide), List.dropWhile_cons_of_neg (by decide),
    List.append_nil]
  simp only [List.head?_cons, List.tail_cons]
  rw [if_pos trivial, takeWhile_all f hf, dropWhile_all f hf, hemp, Bool.false_and,
    if_neg (by simp)]
  rfl

/-- The renamed-minus parse: a leading `'-'` flips the sign of the
unsigned parse. -/
lemma pyFloatParse_mk_neg (rest : List Char) :
    pyFloatParse (String.mk ('-' :: rest)) =
      (pyFloatCore rest).map (fun p => (⟨true, p.1, p.2.1, p.2.2⟩ : PyDec)) := rfl

/-- On a leading-minus Brazilian-formatted number, the removal stages of
`clean_val` are the identity, the trailing-minus rewrite does not apply,
the grouping periods are removed, and the decimal comma becomes a
period. -/
lemma cleanStr_brNeg (g : List (List Char)) (f : List Char)
    (hg : ∀ c ∈ g.flatten, c.isDigit = true) (hf : ∀ c ∈ f, c.isDigit = true) :
    cleanStr (brNeg g f) = String.mk ('-' :: (g.flatten ++ '.' :: f)) := by
  have hmem : ∀ c ∈ ('-' :: (dotJoin g ++ ',' :: f)), plainChar c := by
    intro c hc
    rcases List.mem_cons.mp hc with rfl | hc
    · exact Or.inl rfl
    rcases List.mem_append.mp hc with hc | hc
    · rcases mem_dotJoin g c hc with hc | rfl
      · exact Or.inr (Or.inr (Or.inr (hg c hc)))
      · exact Or.inr (Or.inl rfl)
    · rcases List.mem_cons.mp hc with rfl | hc
      · exact Or.inr (Or.inr (Or.inl rfl))
      · exact Or.inr (Or.inr (Or.inr (hf c hc)))
  have hdata : (brNeg g f).data = '-' :: (dotJoin g ++ ',' :: f) := rfl
  simp only [cleanStr, hdata]
  rw [filter_ne_eq_self _ _ (fun c hc => (plainChar_ne c (hmem c hc)).1),
    removeRS_eq_self _ (fun c hc => (plainChar_ne c (hmem c hc)).2.1),
    filter_ne_eq_self _ _ (fun c hc => (plainChar_ne c (hmem c hc)).2.2.1),
    map_eq_self_of _ _ (fun c hc => if_neg ((plainChar_ne c (hmem c hc)).2.2.2)),
    trailingMinusRewrite_head_minus (dotJoin g ++ ',' :: f)]
  have h6 : ('-' :: (dotJoin g ++ ',' :: f)).filter (fun d => d != '.')
      = '-' :: (g.flatten ++ ',' :: f) := by
    rw [List.filter_cons_of_pos (by decide), List.filter_append, filter_dotJoin g hg,
      List.filter_cons_of_pos (by decide),
      filter_ne_eq_self f '.' (fun c hc => (isDigit_ne_seps c (hf c hc)).1)]
  have hdata2 : (String.mk ('-' :: (dotJoin g ++ ',' :: f))).data
      = '-' :: (dotJoin g ++ ',' :: f) := rfl
  rw [hdata2, h6]
  have h7 : ('-' :: (g.flatten ++ ',' :: f)).map (fun c => if c = ',' then '.' else c)
      = '-' :: (g.flatten ++ '.' :: f) := by
    rw [List.map_cons, List.map_append, List.map_cons, if_neg (by decide), if_pos rfl,
      map_eq_self_of g.flatten _ (fun c hc => if_neg (isDigit_ne_seps c (hg c hc)).2),
      map_eq_self_of f _ (fun c hc => if_neg (isDigit_ne_seps c (hf c hc)).2)]
  rw [h7]

/-- Claim C10: for every string of the shape "leading ASCII hyphen-minus,
digit groups with period grouping separators, comma decimal separator,
fraction digits", the trailing-minus rewrite does not apply, the periods
are removed, the comma becomes the decimal point, and `clean_val` returns
exactly the corresponding negative rational; instantiated at
`"-1.234,56" ↦ -1234.56`. -/
theorem claim_C10 :
    (∀ (g : List (List Char)) (f : List Char),
        (∀ c ∈ g.flatten, c.isDigit = true) → (∀ c ∈ f, c.isDigit = true) →
        g.flatten ≠ [] →
        trailingMinusRewrite (brNeg g f) = brNeg g f ∧
        clean_val [brNeg g f] =
          [some (PyFloat.fin
            (-((digitsVal g.flatten : ℚ) + (digitsVal f : ℚ) / 10 ^ f.length)))]) ∧
    brNeg [['1'], ['2', '3', '4']] ['5', '6'] = "-1.234,56" ∧
    clean_val ["-1.234,56"] = [some (PyFloat.fin (-1234.56 : ℚ))] := by
  refine ⟨?_, by decide, ?_⟩
  · intro g f hg hf hne
    constructor
    · exact trailingMinusRewrite_head_minus (dotJoin g ++ ',' :: f)
    · have hp : pyFloatParse (cleanStr (brNeg g f))
          = some ⟨true, g.flatten, f, 0⟩ := by
        rw [cleanStr_brNeg g f hg hf, pyFloatParse_mk_neg,
          pyFloatCore_digits_frac g.flatten f hg hf hne]
        rfl
      have hval : clean_val_elem (brNeg g f)
          = some (PyFloat.fin (pyDecVal ⟨true, g.flatten, f, 0⟩)) := by
        rw [clean_val_elem, pyFloat?, hp]
        rfl
      rw [clean_val, List.map_cons, List.map_nil, hval]
      have : pyDecVal ⟨true, g.flatten, f, 0⟩
          = -((digitsVal g.flatten : ℚ) + (digitsVal f : ℚ) / 10 ^ f.length) := by
        simp [pyDecVal]
      rw [this]
  · have h1 : clean_val_elem "-1.234,56" = some (PyFloat.fin (-1234.56 : ℚ)) := by
      rw [clean_val_elem_eq _ ⟨true, ['1', '2', '3', '4'], ['5', '6'], 0⟩ (by decide)]
      have d1 : digitsVal ['1', '2', '3', '4'] = 1234 := by decide
      have d2 : digitsVal ['5', '6'] = 56 := by decide
      norm_num [pyDecVal, d1, d2]
    simp [clean_val, h1]

/-! ### Reader pipeline lemmas (for C2, C6, C7) -/

/-- Witness for C10's universal part at `"-1.234,56"`. -/
theorem claim_C10_witness :
    trailingMinusRewrite (brNeg [['1'], ['2', '3', '4']] ['5', '6'])
      = brNeg [['1'], ['2', '3', '4']] ['5', '6'] ∧
    clean_val [brNeg [['1'], ['2', '3', '4']] ['5', '6']]
      = [some (PyFloat.fin
          (-((digitsVal ([['1'], ['2', '3', '4']] : List (List Char)).flatten : ℚ)
            + (digitsVal ['5', '6'] : ℚ) / 10 ^ (['5', '6'] : List Char).length)))] :=
  claim_C10.1 [['1'], ['2', '3', '4']] ['5', '6'] (by decide) (by decide) (by decide)

end AppTax
